import Mathlib

/-!
Verification of the nekro-plugin-memory repository core subsystems.

Shallow embedding of the repository's Python source:
* the Base62 short-ID codec (`src/__init__.py`, `encode_base62` / `decode_base62` /
  `encode_id` / `decode_id`);
* the client lifecycle manager (`src/mem0_utils.py`, `get_mem0_client`,
  `_config_incomplete`, the fingerprint computation and the Qdrant reset);
* the result formatter filters (`src/mem0_output_formatter.py`,
  `_filter_by_tags` / `_filter_by_score`);
* the prompt-injection entry points and their TTL cache
  (`src/__init__.py` `memory_prompt_inject`, `src/plugin_method.py`
  `inject_memory_prompt`).

Machine integers do not occur (Python ints are unbounded); UUID values are
naturals below 2^128.  Fallible operations return `Option`/`Except`.
-/

/-! ## Base62 short-ID codec (src/__init__.py lines 31-64) -/

/-- The fixed alphabet, exactly as in the source. -/
def BASE62_ALPHABET : String :=
  "0123456789ABCDEFGHIJKLMNOPQRSTUVWXYZabcdefghijklmnopqrstuvwxyz"

/-- `BASE62_ALPHABET[d]`: digit-to-character table lookup used by the encoder.
The default is irrelevant: lookups are always at indices `< 62`. -/
def base62Char (d : Nat) : Char := BASE62_ALPHABET.data.getD d ' '

/-- `BASE62_ALPHABET.index(c)` (Python `str.index`): first index of `c`,
`none` models the `ValueError` raised when `c` is absent. -/
def charIndexAux : List Char → Char → Nat → Option Nat
  | [], _, _ => none
  | a :: rest, c, i => if a = c then some i else charIndexAux rest c (i + 1)

/-- The remainder sequence produced by the source's `while number > 0` loop:
least-significant digit first.  (The guard `b ≤ 1` never fires at base 62;
it only makes the recursion well-founded.) -/
def digitsRev (b n : Nat) : List Nat :=
  if _h : n = 0 ∨ b ≤ 1 then [] else n % b :: digitsRev b (n / b)
termination_by n
decreasing_by
  exact Nat.div_lt_self (Nat.pos_of_ne_zero (fun hn => _h (Or.inl hn)))
    (Nat.lt_of_not_le (fun hb => _h (Or.inr hb)))

/-- `encode_base62` from the source: zero encodes as the alphabet's first
character; otherwise the remainder digits are mapped through the alphabet
and reversed so the most significant digit comes first. -/
def encode_base62 (number : Nat) : String :=
  if number = 0 then "0"
  else String.mk (((digitsRev 62 number).map base62Char).reverse)

/-- The decoder's left-to-right accumulation loop:
`number = number * 62 + BASE62_ALPHABET.index(char)`. -/
def decodeFold : Nat → List Char → Option Nat
  | acc, [] => some acc
  | acc, c :: rest =>
    match charIndexAux BASE62_ALPHABET.data c 0 with
    | none => none
    | some i => decodeFold (acc * 62 + i) rest

/-- `decode_base62` from the source; `none` models the `ValueError` on a
character outside the alphabet. -/
def decode_base62 (encoded : String) : Option Nat := decodeFold 0 encoded.data

/-- `encode_id` from the source.  A UUID is identified with its 128-bit
integer value (`uuid.UUID(original_id).int`); the parse failure on an
invalid UUID is the `none` branch. -/
def encode_id (uuidInt : Nat) : Option String :=
  if uuidInt < 2 ^ 128 then some (encode_base62 uuidInt) else none

/-- `decode_id` from the source: Base62-decode, then rebuild the UUID
(`uuid.UUID(int=number)` raises unless `0 ≤ number < 2^128`). -/
def decode_id (encoded_id : String) : Option Nat :=
  match decode_base62 encoded_id with
  | none => none
  | some m => if m < 2 ^ 128 then some m else none

/-! ### Codec correctness lemmas -/

/-- Value of a least-significant-first digit list. -/
def ofDigitsRev (b : Nat) : List Nat → Nat
  | [] => 0
  | d :: ds => d + b * ofDigitsRev b ds

/-! ## Client lifecycle manager (src/mem0_utils.py) -/

/-- Model of Python `str` on a nonnegative int: decimal digit string.  The
first ten characters of `BASE62_ALPHABET` are exactly the decimal digits,
so the digit table is reused. -/
def pyStrNat (n : Nat) : String :=
  if n = 0 then "0"
  else String.mk (((digitsRev 10 n).map base62Char).reverse)

/-- The fields of a model group that `mem0_utils` reads
(`nekro_agent.core.config.ModelConfigGroup`).  A `None` credential and an
empty string behave identically everywhere they are used (`str(x or "")`,
`_empty`), so fields are plain strings. -/
structure ModelConfigGroup where
  API_KEY : String
  CHAT_MODEL : String
  BASE_URL : String
deriving DecidableEq

/-- The configuration snapshot re-read on every `get_mem0_client` call:
qdrant url/key, the plugin's collection name, the embedding dimension and
the two resolved model groups. -/
structure ConfigSnapshot where
  qdrant_url : String
  qdrant_api_key : String
  collection_name : String
  TEXT_EMBEDDING_DIMENSION : Nat
  llm_model : ModelConfigGroup
  embedding_model : ModelConfigGroup
deriving DecidableEq

/-- `_empty` from `_config_incomplete`: `None` or a blank string.
`str(v).strip() == ""` holds exactly when every character of `v` is
whitespace, which is the form used here. -/
def _empty (v : String) : Bool := v.data.all (fun c => c.isWhitespace)

/-- `_config_incomplete` (src/mem0_utils.py lines 108-126): any blank
API_KEY / CHAT_MODEL / BASE_URL on either model group. -/
def _config_incomplete (cfg : ConfigSnapshot) : Bool :=
  _empty cfg.llm_model.API_KEY || _empty cfg.llm_model.CHAT_MODEL ||
  _empty cfg.llm_model.BASE_URL || _empty cfg.embedding_model.API_KEY ||
  _empty cfg.embedding_model.CHAT_MODEL || _empty cfg.embedding_model.BASE_URL

/-- The ten `fingerprint_parts` strings in source order (src/mem0_utils.py
lines 149-160).  `str(x or "")` is the identity on a plain string field and
`str(dimension)` is `pyStrNat`. -/
def fingerprint_parts (cfg : ConfigSnapshot) : List String :=
  [cfg.qdrant_url, cfg.qdrant_api_key, cfg.collection_name,
   pyStrNat cfg.TEXT_EMBEDDING_DIMENSION,
   cfg.llm_model.API_KEY, cfg.llm_model.CHAT_MODEL, cfg.llm_model.BASE_URL,
   cfg.embedding_model.API_KEY, cfg.embedding_model.CHAT_MODEL,
   cfg.embedding_model.BASE_URL]

/-- Python's `"|".join`. -/
def joinParts : List String → String
  | [] => ""
  | [p] => p
  | p :: q :: ps => p ++ "|" ++ joinParts (q :: ps)

/-- The fingerprint `hash("|".join(fingerprint_parts))`.  Python's `hash`
is abstracted to the deterministic content it is applied to: equal joined
strings always hash equal, and the opaque integer hash can only introduce
additional (environment-dependent) collisions on top of the join. -/
def fingerprint (cfg : ConfigSnapshot) : String :=
  joinParts (fingerprint_parts cfg)

/-- The manager's module-level state (`_mem0_instance`,
`_last_config_hash`, `_last_dimension` from src/plugin.py), instrumented
with `nextId` (the identity a fresh `AsyncMemory(...)` construction would
receive; constructions hand out strictly increasing identities) and
`resetCount` (number of `reset_qdrant_collection` invocations; the reset's
own success or failure is swallowed by the caller, so only the invocation
is observable). -/
structure Mem0State where
  _mem0_instance : Option Nat
  _last_config_hash : Option String
  _last_dimension : Option Nat
  nextId : Nat
  resetCount : Nat
deriving DecidableEq

/-- The instrumented bookkeeping invariant: the live client, if any, was
handed out by an earlier construction (its identity is below `nextId`). -/
def wfState (st : Mem0State) : Bool :=
  match st._mem0_instance with
  | none => true
  | some i => i < st.nextId

/-- `get_mem0_client` (src/mem0_utils.py lines 129-186) as a state
transition: the incomplete-config bailout, fingerprint computation,
pre-lock dimension-change detection, and the reinitialize-or-return-cached
branch.  The lock-protected double check re-reads the same state in this
sequential rendering; the serialization of the critical section itself is
modeled by `lockedReinit`/`runLockedSeq`. -/
def get_mem0_client (cfg : ConfigSnapshot) (st : Mem0State) :
    Option Nat × Mem0State :=
  if _config_incomplete cfg then (none, st)
  else
    let current_hash := fingerprint cfg
    let current_dimension := cfg.TEXT_EMBEDDING_DIMENSION
    let dimension_changed : Bool :=
      match st._last_dimension with
      | none => false
      | some d => d ≠ current_dimension
    if st._mem0_instance = none ∨ st._last_config_hash ≠ some current_hash then
      let st1 := if dimension_changed then
        { st with resetCount := st.resetCount + 1 } else st
      (some st1.nextId,
       { st1 with
          _mem0_instance := some st1.nextId
          _last_config_hash := some current_hash
          _last_dimension := some current_dimension
          nextId := st1.nextId + 1 })
    else (st._mem0_instance, st)

/-- One execution of the `async with _mem0_lock` critical section
(src/mem0_utils.py lines 170-184) by a caller that computed fingerprint
`h`, dimension `dim` and pre-lock flag `dimChanged` before taking the
lock.  Returns the post-section state and whether this caller constructed
a client. -/
def lockedReinit (h : String) (dim : Nat) (dimChanged : Bool)
    (st : Mem0State) : Mem0State × Bool :=
  if st._mem0_instance = none ∨ st._last_config_hash ≠ some h then
    let st1 := if dimChanged then
      { st with resetCount := st.resetCount + 1 } else st
    ({ st1 with
        _mem0_instance := some st1.nextId
        _last_config_hash := some h
        _last_dimension := some dim
        nextId := st1.nextId + 1 }, true)
  else (st, false)

/-- The asyncio lock serializes the critical sections of all concurrent
callers of a single fingerprint change into some order; `runLockedSeq`
runs them in that order (each caller carrying its own pre-lock
`dimension_changed` flag) and counts how many constructed a client. -/
def runLockedSeq (h : String) (dim : Nat) :
    List Bool → Mem0State → Mem0State × Nat
  | [], st => (st, 0)
  | flag :: rest, st =>
    let r1 := lockedReinit h dim flag st
    let r2 := runLockedSeq h dim rest r1.1
    (r2.1, (if r1.2 then 1 else 0) + r2.2)

/-- Two part lists differing in exactly one position. -/
inductive DiffOne : List String → List String → Prop
  | head {a b : String} (t : List String) : a ≠ b → DiffOne (a :: t) (b :: t)
  | tail (a : String) {xs ys : List String} :
      DiffOne xs ys → DiffOne (a :: xs) (a :: ys)

/-- Exactly one contributing configuration field changed (the other nine
are untouched). -/
def ChangedOneField (c c' : ConfigSnapshot) : Prop :=
  (∃ v, v ≠ c.qdrant_url ∧ c' = { c with qdrant_url := v }) ∨
  (∃ v, v ≠ c.qdrant_api_key ∧ c' = { c with qdrant_api_key := v }) ∨
  (∃ v, v ≠ c.collection_name ∧ c' = { c with collection_name := v }) ∨
  (∃ v, v ≠ c.TEXT_EMBEDDING_DIMENSION ∧
    c' = { c with TEXT_EMBEDDING_DIMENSION := v }) ∨
  (∃ v, v ≠ c.llm_model.API_KEY ∧
    c' = { c with llm_model := { c.llm_model with API_KEY := v } }) ∨
  (∃ v, v ≠ c.llm_model.CHAT_MODEL ∧
    c' = { c with llm_model := { c.llm_model with CHAT_MODEL := v } }) ∨
  (∃ v, v ≠ c.llm_model.BASE_URL ∧
    c' = { c with llm_model := { c.llm_model with BASE_URL := v } }) ∨
  (∃ v, v ≠ c.embedding_model.API_KEY ∧
    c' = { c with embedding_model := { c.embedding_model with API_KEY := v } }) ∨
  (∃ v, v ≠ c.embedding_model.CHAT_MODEL ∧
    c' = { c with embedding_model := { c.embedding_model with CHAT_MODEL := v } }) ∨
  (∃ v, v ≠ c.embedding_model.BASE_URL ∧
    c' = { c with embedding_model := { c.embedding_model with BASE_URL := v } })

/-- A string free of the join separator. -/
abbrev noSep (s : String) : Prop := '|' ∉ s.data

/-- All nine string-valued contributing fields are separator-free (the
dimension part, a decimal numeral, is automatically separator-free). -/
abbrev ConfigNoSep (c : ConfigSnapshot) : Prop :=
  noSep c.qdrant_url ∧ noSep c.qdrant_api_key ∧ noSep c.collection_name ∧
  noSep c.llm_model.API_KEY ∧ noSep c.llm_model.CHAT_MODEL ∧
  noSep c.llm_model.BASE_URL ∧ noSep c.embedding_model.API_KEY ∧
  noSep c.embedding_model.CHAT_MODEL ∧ noSep c.embedding_model.BASE_URL

/-- C3 counterexample data: a `"|"` inside `qdrant_url` lets two snapshots
that differ in two fields share one joined fingerprint string
(`"x|y" | "z"` and `"x" | "y|z"` both join to `"x|y|z"`). -/
def c3CfgA : ConfigSnapshot :=
  { qdrant_url := "x|y", qdrant_api_key := "z", collection_name := "c",
    TEXT_EMBEDDING_DIMENSION := 1,
    llm_model := ⟨"k", "m", "u"⟩, embedding_model := ⟨"k", "m", "u"⟩ }

/-- C3 counterexample data, second snapshot. -/
def c3CfgB : ConfigSnapshot :=
  { c3CfgA with qdrant_url := "x", qdrant_api_key := "y|z" }

/-! ## Result formatter filters (src/mem0_output_formatter.py) -/

/-- The value found under a record's `"score"` key: either something
`float()` accepts (numeric values modeled as rationals) or a value
`float()` rejects with `ValueError`/`TypeError`. -/
inductive ScoreField
  | num (q : ℚ)
  | unparsable
deriving DecidableEq

/-- The value found under a record's `"metadata"` key: a string-to-string
mapping, or any non-mapping value (including `None`). -/
inductive MetaField
  | dict (entries : List (String × String))
  | nondict
deriving DecidableEq

/-- The slice of a memory record that the two filters read; `none` models
an absent key (the `_safe_get` default). -/
structure MemRecord where
  score : Option ScoreField
  metadata : Option MetaField
deriving DecidableEq

/-- `metadata.get("TYPE", default)` over the entry list. -/
def metaLookup : List (String × String) → String → Option String
  | [], _ => none
  | (k, v) :: rest, key => if k = key then some v else metaLookup rest key

/-- `_filter_by_tags` (src/mem0_output_formatter.py lines 45-69):
`if not tags: return items`; otherwise keep exactly the items whose
metadata (defaulted to `{}` when the key is absent) is a mapping whose
`TYPE` value (defaulted to `""`) is among the tags; non-mapping metadata
is skipped by `continue`. -/
def _filter_by_tags (items : List MemRecord) (tags : Option (List String)) :
    List MemRecord :=
  match tags with
  | none => items
  | some [] => items
  | some ts =>
    items.filter (fun item =>
      match item.metadata.getD (.dict []) with
      | .nondict => false
      | .dict entries => decide ((metaLookup entries "TYPE").getD "" ∈ ts))

/-- `_filter_by_score` (src/mem0_output_formatter.py lines 72-99): no
threshold keeps everything; with a threshold, an absent score keeps the
item, `float(score) >= threshold` decides parseable scores, and the
`except` branch keeps items whose score does not parse. -/
def _filter_by_score (items : List MemRecord)
    (score_threshold : Option ℚ) : List MemRecord :=
  match score_threshold with
  | none => items
  | some th =>
    items.filter (fun item =>
      match item.score with
      | none => true
      | some .unparsable => true
      | some (.num q) => decide (th ≤ q))

/-! ## Prompt injection and its TTL cache -/

/-- One `_memory_inject_cache` value: `{"timestamp", "result"}`.
Timestamps are integers (an idealized `time.time()` clock). -/
structure CacheEntry where
  timestamp : Int
  result : String
deriving DecidableEq

/-- The cache dict, most recent binding first. -/
abbrev InjectCache := List (String × CacheEntry)

/-- `key in cache` / `cache[key]`. -/
def cacheLookup : InjectCache → String → Option CacheEntry
  | [], _ => none
  | (k, e) :: rest, key => if k = key then some e else cacheLookup rest key

/-- Python dict assignment `cache[key] = entry`. -/
def cacheInsert (c : InjectCache) (key : String) (e : CacheEntry) :
    InjectCache :=
  (key, e) :: c.filter (fun p => !(p.1 == key))

/-- The knobs of `MemoryConfig` read by the injection path. -/
structure InjectConfig where
  AUTO_MEMORY_ENABLED : Bool
  TOPIC_CACHE_EXPIRE_SECONDS : Int
deriving DecidableEq

/-- The cache-miss path of `memory_prompt_inject` (src/__init__.py lines
306-619).  The entire guarded `try` body — client acquisition, DB
lookups, optional LLM analysis, retrieval, down to the assembled
`memory_text` — is the oracle `pipeline`: `.error` is an exception raised
anywhere inside it, `.ok t` is reaching line 601 with `memory_text = t`.
A blank text returns `""` without caching (lines 602-603); a non-blank
one is stored under the conversation key with the current timestamp, the
TTL sweep deletes every entry with `now - timestamp > TTL`
(lines 611-614), and the stripped text is returned; an exception is
caught at line 617 and turns into `""`. -/
def runPipelinePath (cfg : InjectConfig) (now : Int) (key : String)
    (cache : InjectCache) (pipeline : Except Unit String) :
    String × InjectCache :=
  match pipeline with
  | .error _ => ("", cache)
  | .ok memory_text =>
    if memory_text.trim = "" then ("", cache)
    else
      let stored := cacheInsert cache key ⟨now, memory_text.trim⟩
      (memory_text.trim,
       stored.filter (fun p =>
         !decide (cfg.TOPIC_CACHE_EXPIRE_SECONDS < now - p.2.timestamp)))

/-- `memory_prompt_inject` (src/__init__.py lines 287-619): the
auto-memory enabled check, the cache probe with strict TTL liveness
`now - timestamp < TTL` (lines 297-304), then the guarded pipeline. -/
def memory_prompt_inject (cfg : InjectConfig) (now : Int) (key : String)
    (cache : InjectCache) (pipeline : Except Unit String) :
    String × InjectCache :=
  if !cfg.AUTO_MEMORY_ENABLED then ("", cache)
  else
    match cacheLookup cache key with
    | some cache_data =>
      if now - cache_data.timestamp < cfg.TOPIC_CACHE_EXPIRE_SECONDS then
        (cache_data.result, cache)
      else runPipelinePath cfg now key cache pipeline
    | none => runPipelinePath cfg now key cache pipeline

/-- A chat message row as read by `inject_memory_prompt` (only the sender
id matters to it). -/
structure DbMsg where
  sender_id : String
deriving DecidableEq

/-- The constant prompt template of `inject_memory_prompt`
(src/plugin_method.py lines 485-510) with the pre-searched memory context
substituted.  The surrounding prose is abridged: no verified property
depends on its wording, only on the returned block being this non-empty
template rather than the empty string. -/
def PROMPT_TEMPLATE (memory_context : String) : String :=
  "\n    This is a plugin for memory management. " ++
  "[metadata tag and confidence definitions elided]\n" ++
  "    Here is the memory you might use in the conversation:\n    " ++
  memory_context ++
  "\n    Due to the limited pre-search functionality, if the above " ++
  "does not contain the memory you need, you can try calling " ++
  "search_memory to find it.\n    "

/-- Whether `pat` occurs at the head of `s`. -/
def leadMatch : List Char → List Char → Bool
  | [], _ => true
  | _ :: _, [] => false
  | p :: ps, s :: ss => p == s && leadMatch ps ss

/-- Whether `pat` occurs anywhere in `s`. -/
def containsSub (pat : List Char) : List Char → Bool
  | [] => leadMatch pat []
  | s :: ss => leadMatch pat (s :: ss) || containsSub pat ss

/-- Python's `pat in s` on strings. -/
def strContainsSub (s pat : String) : Bool := containsSub pat.data s.data

/-- `inject_memory_prompt` (src/plugin_method.py lines 435-535).  The DB
channel lookup and the message query are oracles that may raise
(`.error`); `memFor uid` is the `get_all_memory` call for one user, whose
failure is caught by the per-user `try`/`except` and skipped.  Python's
`list(set(...))` iteration order is modeled as first-occurrence order; no
verified property depends on that order.  Note there is no top-level
`try`/`except`: failures of `channel` or `messages` propagate. -/
def inject_memory_prompt (channel : Except Unit Unit)
    (messages : Except Unit (List DbMsg))
    (memFor : String → Except Unit String) : Except Unit String := do
  let _ ← channel
  let msgs ← messages
  let recent := msgs.filter (fun m =>
    !(m.sender_id == "0") && !(m.sender_id == "-1"))
  let user_id_list := (recent.map (fun m => m.sender_id)).dedup
  let memory_context :=
    if user_id_list.isEmpty then "预搜索结果为空"
    else
      let collected := user_id_list.foldl (fun acc uid =>
        match memFor uid with
        | .error _ => acc
        | .ok mem_text =>
          if strContainsSub mem_text "(无结果)" then acc
          else acc ++ mem_text ++ "\n") ""
      if collected.trim = "" then "预搜索结果为空" else collected
  return PROMPT_TEMPLATE memory_context

theorem ofDigitsRev_digitsRev (b : Nat) (hb : 1 < b) :
    ∀ n, ofDigitsRev b (digitsRev b n) = n := by
  intro n
  induction n using Nat.strong_induction_on with
  | _ n ih =>
    rw [digitsRev]
    split
    · rename_i h
      rcases h with h | h
      · simp [ofDigitsRev, h]
      · omega
    · rename_i h
      simp only [ofDigitsRev]
      rw [ih (n / b) (Nat.div_lt_self (by omega) hb)]
      exact Nat.mod_add_div n b

theorem digitsRev_lt (b : Nat) : ∀ n, ∀ d ∈ digitsRev b n, d < b := by
  intro n
  induction n using Nat.strong_induction_on with
  | _ n ih =>
    rw [digitsRev]
    split
    · simp
    · rename_i h
      intro d hd
      rcases List.mem_cons.1 hd with rfl | hd
      · exact Nat.mod_lt _ (by omega)
      · exact ih (n / b) (Nat.div_lt_self (by omega) (by omega)) d hd

theorem digitsRev_injective (b : Nat) (hb : 1 < b) {m n : Nat}
    (h : digitsRev b m = digitsRev b n) : m = n := by
  have := congrArg (ofDigitsRev b) h
  rwa [ofDigitsRev_digitsRev b hb, ofDigitsRev_digitsRev b hb] at this

theorem decodeFold_append (l1 l2 : List Char) :
    ∀ acc, decodeFold acc (l1 ++ l2) =
      (decodeFold acc l1).bind (fun v => decodeFold v l2) := by
  induction l1 with
  | nil => intro acc; simp [decodeFold]
  | cons c rest ih =>
    intro acc
    simp only [List.cons_append, decodeFold]
    cases charIndexAux BASE62_ALPHABET.data c 0 with
    | none => simp
    | some i => simp [ih]

theorem charIndex_base62 : ∀ d < 62,
    charIndexAux BASE62_ALPHABET.data (base62Char d) 0 = some d := by decide

theorem decodeFold_encode (ds : List Nat) :
    ∀ acc, (∀ d ∈ ds, d < 62) →
      decodeFold acc ((ds.map base62Char).reverse) =
        some (acc * 62 ^ ds.length + ofDigitsRev 62 ds) := by
  induction ds with
  | nil => intro acc _; simp [decodeFold, ofDigitsRev]
  | cons d ds ih =>
    intro acc h
    simp only [List.map_cons, List.reverse_cons]
    rw [decodeFold_append,
      ih acc (fun x hx => h x (List.mem_cons_of_mem _ hx))]
    simp only [Option.some_bind, decodeFold]
    rw [charIndex_base62 d (h d (List.mem_cons_self _ _))]
    simp only [decodeFold, ofDigitsRev, List.length_cons]
    congr 1
    ring

theorem decode_encode_base62 (n : Nat) :
    decode_base62 (encode_base62 n) = some n := by
  unfold encode_base62
  split
  · rename_i h; subst h; decide
  · rename_i h
    show decodeFold 0 (((digitsRev 62 n).map base62Char).reverse) = some n
    rw [decodeFold_encode _ 0 (digitsRev_lt 62 n)]
    simp [ofDigitsRev_digitsRev 62 (by norm_num) n]

theorem encode_base62_injective {m n : Nat}
    (h : encode_base62 m = encode_base62 n) : m = n := by
  have := congrArg decode_base62 h
  rw [decode_encode_base62, decode_encode_base62] at this
  exact Option.some.inj this

/-- C1: for every valid UUID (128-bit integer value `n < 2^128`),
decoding the Base62 encoding yields the UUID back; `encode_id` is
deterministic (a total function on valid UUIDs, with the stated value);
and distinct valid UUIDs always receive distinct encodings. -/
theorem c1_short_id_codec_roundtrip (n : Nat) (h : n < 2 ^ 128) :
    (encode_id n).bind decode_id = some n ∧
    encode_id n = some (encode_base62 n) ∧
    ∀ m, m < 2 ^ 128 → m ≠ n → encode_id m ≠ encode_id n := by
  have hd : decode_id (encode_base62 n) = some n := by
    unfold decode_id
    rw [decode_encode_base62]
    exact if_pos h
  refine ⟨?_, ?_, ?_⟩
  · unfold encode_id
    rw [if_pos h]
    simpa using hd
  · unfold encode_id
    rw [if_pos h]
  · intro m hm hmn
    unfold encode_id
    rw [if_pos hm, if_pos h]
    intro heq
    exact hmn (encode_base62_injective (Option.some.inj heq))

theorem c1_short_id_codec_roundtrip_witness :
    (12345 : Nat) < 2 ^ 128 ∧ (encode_id 12345).bind decode_id = some 12345 :=
  ⟨by norm_num, (c1_short_id_codec_roundtrip 12345 (by norm_num)).1⟩

/-! ### Lifecycle manager lemmas -/

theorem stringData_inj {s t : String} (h : s.data = t.data) : s = t := by
  cases s
  cases t
  exact congrArg String.mk h

theorem base62Char_inj {a b : Nat} (ha : a < 62) (hb : b < 62)
    (h : base62Char a = base62Char b) : a = b := by
  have h1 := charIndex_base62 a ha
  have h2 := charIndex_base62 b hb
  rw [h, h2] at h1
  exact (Option.some.inj h1).symm

theorem map_base62Char_inj : ∀ (ds es : List Nat),
    (∀ d ∈ ds, d < 62) → (∀ e ∈ es, e < 62) →
    ds.map base62Char = es.map base62Char → ds = es := by
  intro ds
  induction ds with
  | nil =>
    intro es _ _ h
    cases es with
    | nil => rfl
    | cons e es => simp at h
  | cons d ds ih =>
    intro es hds hes h
    cases es with
    | nil => simp at h
    | cons e es =>
      simp only [List.map_cons, List.cons.injEq] at h
      have hde : d = e :=
        base62Char_inj (hds d (by simp)) (hes e (by simp)) h.1
      subst hde
      rw [ih es (fun x hx => hds x (by simp [hx]))
        (fun x hx => hes x (by simp [hx])) h.2]

theorem digitsRev_ten_lt62 (n : Nat) : ∀ d ∈ digitsRev 10 n, d < 62 :=
  fun d hd => lt_trans (digitsRev_lt 10 n d hd) (by norm_num)

theorem pyStrNat_injective {m n : Nat} (h : pyStrNat m = pyStrNat n) :
    m = n := by
  have zero_case : ∀ k : Nat, ¬k = 0 →
      String.mk (((digitsRev 10 k).map base62Char).reverse) ≠ "0" := by
    intro k hk hc
    have hl : ((digitsRev 10 k).map base62Char).reverse = ['0'] :=
      congrArg String.data hc
    have hl2 : (digitsRev 10 k).map base62Char = ['0'] := by
      have h3 := congrArg List.reverse hl
      simpa using h3
    have h4 : digitsRev 10 k = [0] := by
      apply map_base62Char_inj _ _ (digitsRev_ten_lt62 k)
      · intro e he
        simp at he
        omega
      · simpa [base62Char] using hl2
    have h5 := ofDigitsRev_digitsRev 10 (by norm_num) k
    rw [h4] at h5
    simp [ofDigitsRev] at h5
    exact hk h5.symm
  unfold pyStrNat at h
  by_cases hm : m = 0 <;> by_cases hn : n = 0
  · omega
  · rw [if_pos hm, if_neg hn] at h
    exact absurd h.symm (zero_case n hn)
  · rw [if_neg hm, if_pos hn] at h
    exact absurd h (zero_case m hm)
  · rw [if_neg hm, if_neg hn] at h
    have hl : ((digitsRev 10 m).map base62Char).reverse =
        ((digitsRev 10 n).map base62Char).reverse := congrArg String.data h
    have hl2 := congrArg List.reverse hl
    simp only [List.reverse_reverse] at hl2
    have h6 := map_base62Char_inj _ _ (digitsRev_ten_lt62 m)
      (digitsRev_ten_lt62 n) hl2
    exact digitsRev_injective 10 (by norm_num) h6

theorem get_mem0_client_reinit (cfg : ConfigSnapshot) (st : Mem0State)
    (hc : _config_incomplete cfg = false)
    (hcond : st._mem0_instance = none ∨
      st._last_config_hash ≠ some (fingerprint cfg)) :
    get_mem0_client cfg st =
      (some st.nextId,
       { _mem0_instance := some st.nextId
         _last_config_hash := some (fingerprint cfg)
         _last_dimension := some cfg.TEXT_EMBEDDING_DIMENSION
         nextId := st.nextId + 1
         resetCount := st.resetCount +
           (match st._last_dimension with
            | none => 0
            | some d => if d = cfg.TEXT_EMBEDDING_DIMENSION then 0 else 1) }) := by
  unfold get_mem0_client
  simp only [hc, Bool.false_eq_true, if_false]
  rw [if_pos hcond]
  rcases hdim : st._last_dimension with _ | d
  · simp [hdim]
  · by_cases hd : d = cfg.TEXT_EMBEDDING_DIMENSION <;> simp [hdim, hd]

theorem get_mem0_client_cached (cfg : ConfigSnapshot) (st : Mem0State)
    (hc : _config_incomplete cfg = false)
    (h1 : st._mem0_instance ≠ none)
    (h2 : st._last_config_hash = some (fingerprint cfg)) :
    get_mem0_client cfg st = (st._mem0_instance, st) := by
  unfold get_mem0_client
  simp only [hc, Bool.false_eq_true, if_false]
  rw [if_neg]
  push_neg
  exact ⟨h1, by simp [h2]⟩

theorem runLockedSeq_stable (h : String) (dim : Nat) (flags : List Bool) :
    ∀ st : Mem0State, st._mem0_instance ≠ none →
      st._last_config_hash = some h →
      runLockedSeq h dim flags st = (st, 0) := by
  induction flags with
  | nil => intro st _ _; rfl
  | cons f rest ih =>
    intro st h1 h2
    unfold runLockedSeq lockedReinit
    rw [if_neg]
    · simp [ih st h1 h2]
    · push_neg
      exact ⟨h1, by simp [h2]⟩

/-- C4: however many concurrent callers pile up on a single fingerprint
change, the serialized critical sections construct at most one client:
whichever caller runs its locked double check first constructs, and every
later caller sees the stored fingerprint equal to its own and backs off. -/
theorem c4_double_checked_single_construction (h : String) (dim : Nat)
    (flags : List Bool) (st : Mem0State) :
    (runLockedSeq h dim flags st).2 ≤ 1 := by
  induction flags generalizing st with
  | nil => simp [runLockedSeq]
  | cons f rest ih =>
    unfold runLockedSeq lockedReinit
    by_cases hcond : st._mem0_instance = none ∨
        st._last_config_hash ≠ some h
    · rw [if_pos hcond]
      simp only
      rw [runLockedSeq_stable h dim rest _ (by simp) (by simp)]
      simp
    · rw [if_neg hcond]
      simpa using ih st

/-- C5: with any required field of either model group blank, the manager
reports "unavailable" (`none`) without touching its state (no
construction, no reset, no exception — the incomplete branch returns
before any fingerprint or client work), and the check is re-evaluated on
the next call: a complete configuration immediately yields a client. -/
theorem c5_incomplete_config_unavailable (st : Mem0State)
    (cfg cfgNext : ConfigSnapshot)
    (h : _config_incomplete cfg = true)
    (hNext : _config_incomplete cfgNext = false) :
    get_mem0_client cfg st = (none, st) ∧
    (get_mem0_client cfgNext (get_mem0_client cfg st).2).1 ≠ none := by
  have h1 : get_mem0_client cfg st = (none, st) := by
    unfold get_mem0_client
    rw [if_pos h]
  refine ⟨h1, ?_⟩
  rw [h1]
  by_cases hcond : st._mem0_instance = none ∨
      st._last_config_hash ≠ some (fingerprint cfgNext)
  · rw [get_mem0_client_reinit cfgNext st hNext hcond]
    simp
  · push_neg at hcond
    rw [get_mem0_client_cached cfgNext st hNext hcond.1 hcond.2]
    exact hcond.1

theorem c5_incomplete_config_unavailable_witness :
    _config_incomplete
        { qdrant_url := "q", qdrant_api_key := "s", collection_name := "c",
          TEXT_EMBEDDING_DIMENSION := 4,
          llm_model := ⟨"  ", "m", "u"⟩,
          embedding_model := ⟨"k", "m", "u"⟩ } = true ∧
    get_mem0_client
        { qdrant_url := "q", qdrant_api_key := "s", collection_name := "c",
          TEXT_EMBEDDING_DIMENSION := 4,
          llm_model := ⟨"  ", "m", "u"⟩,
          embedding_model := ⟨"k", "m", "u"⟩ }
        ⟨none, none, none, 0, 0⟩ = (none, ⟨none, none, none, 0, 0⟩) :=
  ⟨by decide,
   (c5_incomplete_config_unavailable ⟨none, none, none, 0, 0⟩ _
      { qdrant_url := "q", qdrant_api_key := "s", collection_name := "c",
        TEXT_EMBEDDING_DIMENSION := 4,
        llm_model := ⟨"k", "m", "u"⟩,
        embedding_model := ⟨"k", "m", "u"⟩ }
      (by decide) (by decide)).1⟩

theorem diffOne_shape {xs ys : List String} (h : DiffOne xs ys) :
    ∃ x xs1 y ys1, xs = x :: xs1 ∧ ys = y :: ys1 := by
  cases h with
  | head t hne => exact ⟨_, _, _, _, rfl, rfl⟩
  | tail a hd => exact ⟨_, _, _, _, rfl, rfl⟩

theorem joinParts_ne_of_diffOne {xs ys : List String} (h : DiffOne xs ys) :
    joinParts xs ≠ joinParts ys := by
  induction h with
  | head t hne =>
    cases t with
    | nil => simpa [joinParts] using hne
    | cons u t =>
      intro hc
      apply hne
      have hd := congrArg String.data hc
      simp only [joinParts, String.data_append] at hd
      exact stringData_inj
        (List.append_cancel_right (List.append_cancel_right hd))
  | tail a hdiff ih =>
    obtain ⟨x, xs1, y, ys1, rfl, rfl⟩ := diffOne_shape hdiff
    intro hc
    apply ih
    have hd := congrArg String.data hc
    simp only [joinParts, String.data_append] at hd
    exact stringData_inj (List.append_cancel_left hd)

theorem diffOne_of_changedOne {c c' : ConfigSnapshot}
    (h : ChangedOneField c c') :
    DiffOne (fingerprint_parts c) (fingerprint_parts c') := by
  obtain ⟨u1, k1, n1, d1, ⟨la, lc, lb⟩, ⟨ea, ec, eb⟩⟩ := c
  rcases h with ⟨v, hv, rfl⟩ | ⟨v, hv, rfl⟩ | ⟨v, hv, rfl⟩ | ⟨v, hv, rfl⟩ |
    ⟨v, hv, rfl⟩ | ⟨v, hv, rfl⟩ | ⟨v, hv, rfl⟩ | ⟨v, hv, rfl⟩ |
    ⟨v, hv, rfl⟩ | ⟨v, hv, rfl⟩
  · exact .head _ (Ne.symm hv)
  · exact .tail _ (.head _ (Ne.symm hv))
  · exact .tail _ (.tail _ (.head _ (Ne.symm hv)))
  · exact .tail _ (.tail _ (.tail _ (.head _
      (fun he => hv (pyStrNat_injective he).symm))))
  · exact .tail _ (.tail _ (.tail _ (.tail _ (.head _ (Ne.symm hv)))))
  · exact .tail _ (.tail _ (.tail _ (.tail _ (.tail _
      (.head _ (Ne.symm hv))))))
  · exact .tail _ (.tail _ (.tail _ (.tail _ (.tail _ (.tail _
      (.head _ (Ne.symm hv)))))))
  · exact .tail _ (.tail _ (.tail _ (.tail _ (.tail _ (.tail _ (.tail _
      (.head _ (Ne.symm hv))))))))
  · exact .tail _ (.tail _ (.tail _ (.tail _ (.tail _ (.tail _ (.tail _
      (.tail _ (.head _ (Ne.symm hv)))))))))
  · exact .tail _ (.tail _ (.tail _ (.tail _ (.tail _ (.tail _ (.tail _
      (.tail _ (.tail _ (.head _ (Ne.symm hv))))))))))

/-- C2: from any well-formed manager state, (i) a second `get_mem0_client`
call with an unchanged configuration returns the same client instance and
leaves the state untouched (in particular no reset), (ii) after exactly
one contributing field changes the next call returns a new instance, and
(iii) that reinitialization invokes the Qdrant reset exactly once when,
and only when, the embedding dimension differs from the previously stored
dimension. -/
theorem c2_lifecycle_reinit_and_reset (st : Mem0State)
    (cfg cfg' : ConfigSnapshot)
    (hwf : wfState st = true)
    (hc : _config_incomplete cfg = false)
    (hc' : _config_incomplete cfg' = false)
    (hchange : ChangedOneField cfg cfg') :
    (get_mem0_client cfg (get_mem0_client cfg st).2 = get_mem0_client cfg st) ∧
    (∃ c1 c2, (get_mem0_client cfg st).1 = some c1 ∧
      (get_mem0_client cfg' (get_mem0_client cfg st).2).1 = some c2 ∧
      c2 ≠ c1) ∧
    ((get_mem0_client cfg' (get_mem0_client cfg st).2).2.resetCount =
      (get_mem0_client cfg st).2.resetCount +
        (match (get_mem0_client cfg st).2._last_dimension with
         | none => 0
         | some d => if d = cfg'.TEXT_EMBEDDING_DIMENSION then 0 else 1)) := by
  have hfp : fingerprint cfg ≠ fingerprint cfg' :=
    joinParts_ne_of_diffOne (diffOne_of_changedOne hchange)
  by_cases hcond : st._mem0_instance = none ∨
      st._last_config_hash ≠ some (fingerprint cfg)
  · rw [get_mem0_client_reinit cfg st hc hcond]
    have hcond2 : ∀ S : Mem0State,
        S._last_config_hash = some (fingerprint cfg) →
        S._mem0_instance = none ∨
          S._last_config_hash ≠ some (fingerprint cfg') := by
      intro S hS
      exact Or.inr (by rw [hS]; exact fun he => hfp (Option.some.inj he))
    refine ⟨?_, ?_, ?_⟩
    · rw [get_mem0_client_cached cfg _ hc (by simp) (by simp)]
    · refine ⟨st.nextId, st.nextId + 1, rfl, ?_, by omega⟩
      rw [get_mem0_client_reinit cfg' _ hc' (hcond2 _ rfl)]
    · rw [get_mem0_client_reinit cfg' _ hc' (hcond2 _ rfl)]
  · push_neg at hcond
    obtain ⟨hinst, hhash⟩ := hcond
    rw [get_mem0_client_cached cfg st hc hinst hhash]
    obtain ⟨i, hi⟩ := Option.ne_none_iff_exists'.1 hinst
    have hilt : i < st.nextId := by
      unfold wfState at hwf
      rw [hi] at hwf
      simpa using hwf
    refine ⟨?_, ?_, ?_⟩
    · rw [get_mem0_client_cached cfg st hc hinst hhash]
    · refine ⟨i, st.nextId, hi, ?_, by omega⟩
      rw [get_mem0_client_reinit cfg' st hc'
        (Or.inr (by rw [hhash]; exact fun he => hfp (Option.some.inj he)))]
    · rw [get_mem0_client_reinit cfg' st hc'
        (Or.inr (by rw [hhash]; exact fun he => hfp (Option.some.inj he)))]

theorem c2_lifecycle_reinit_and_reset_witness :
    ChangedOneField
        { qdrant_url := "q", qdrant_api_key := "s", collection_name := "c",
          TEXT_EMBEDDING_DIMENSION := 1,
          llm_model := ⟨"k", "m", "u"⟩, embedding_model := ⟨"k", "m", "u"⟩ }
        { qdrant_url := "q", qdrant_api_key := "s", collection_name := "c",
          TEXT_EMBEDDING_DIMENSION := 2,
          llm_model := ⟨"k", "m", "u"⟩, embedding_model := ⟨"k", "m", "u"⟩ } ∧
    (∃ c1 c2,
      (get_mem0_client
          { qdrant_url := "q", qdrant_api_key := "s", collection_name := "c",
            TEXT_EMBEDDING_DIMENSION := 1,
            llm_model := ⟨"k", "m", "u"⟩,
            embedding_model := ⟨"k", "m", "u"⟩ }
          ⟨none, none, none, 0, 0⟩).1 = some c1 ∧
      (get_mem0_client
          { qdrant_url := "q", qdrant_api_key := "s", collection_name := "c",
            TEXT_EMBEDDING_DIMENSION := 2,
            llm_model := ⟨"k", "m", "u"⟩,
            embedding_model := ⟨"k", "m", "u"⟩ }
          (get_mem0_client
            { qdrant_url := "q", qdrant_api_key := "s", collection_name := "c",
              TEXT_EMBEDDING_DIMENSION := 1,
              llm_model := ⟨"k", "m", "u"⟩,
              embedding_model := ⟨"k", "m", "u"⟩ }
            ⟨none, none, none, 0, 0⟩).2).1 = some c2 ∧ c2 ≠ c1) := by
  refine ⟨Or.inr (Or.inr (Or.inr (Or.inl ⟨2, by decide, rfl⟩))), ?_⟩
  exact (c2_lifecycle_reinit_and_reset ⟨none, none, none, 0, 0⟩ _ _
    (by decide) (by decide) (by decide)
    (Or.inr (Or.inr (Or.inr (Or.inl ⟨2, by decide, rfl⟩))))).2.1

/-! ### Fingerprint (C3) lemmas -/

theorem splitAtSep : ∀ (as bs r1 r2 : List Char), '|' ∉ as → '|' ∉ bs →
    as ++ '|' :: r1 = bs ++ '|' :: r2 → as = bs ∧ r1 = r2 := by
  intro as
  induction as with
  | nil =>
    intro bs r1 r2 _ hb h
    cases bs with
    | nil => simpa using h
    | cons b bs =>
      simp only [List.nil_append, List.cons_append, List.cons.injEq] at h
      cases h.1
      simp at hb
  | cons a as ih =>
    intro bs r1 r2 ha hb h
    cases bs with
    | nil =>
      simp only [List.cons_append, List.nil_append, List.cons.injEq] at h
      cases h.1
      simp at ha
    | cons b bs =>
      simp only [List.cons_append, List.cons.injEq] at h
      obtain ⟨rfl, h2⟩ := h
      have ha2 : '|' ∉ as := fun hm => ha (List.mem_cons_of_mem _ hm)
      have hb2 : '|' ∉ bs := fun hm => hb (List.mem_cons_of_mem _ hm)
      obtain ⟨h3, h4⟩ := ih bs r1 r2 ha2 hb2 h2
      exact ⟨by rw [h3], h4⟩

theorem joinParts_inj : ∀ (xs ys : List String), xs.length = ys.length →
    (∀ p ∈ xs, noSep p) → (∀ p ∈ ys, noSep p) →
    joinParts xs = joinParts ys → xs = ys := by
  intro xs
  induction xs with
  | nil =>
    intro ys hlen _ _ _
    cases ys with
    | nil => rfl
    | cons y ys => simp at hlen
  | cons x xs ih =>
    intro ys hlen hx hy h
    cases ys with
    | nil => simp at hlen
    | cons y ys =>
      cases xs with
      | nil =>
        cases ys with
        | nil =>
          simp only [joinParts] at h
          rw [h]
        | cons y2 ys2 => simp at hlen
      | cons x2 xs2 =>
        cases ys with
        | nil => simp at hlen
        | cons y2 ys2 =>
          have hd := congrArg String.data h
          simp only [joinParts, String.data_append] at hd
          rw [List.append_assoc, List.append_assoc] at hd
          simp only [List.singleton_append] at hd
          obtain ⟨h1, h2⟩ := splitAtSep _ _ _ _
            (hx x (by simp)) (hy y (by simp)) hd
          have hxy := stringData_inj h1
          have hJ : joinParts (x2 :: xs2) = joinParts (y2 :: ys2) :=
            stringData_inj h2
          have htail := ih (y2 :: ys2) (by simpa using hlen)
            (fun p hp => hx p (List.mem_cons_of_mem _ hp))
            (fun p hp => hy p (List.mem_cons_of_mem _ hp)) hJ
          rw [hxy, htail]

theorem noSep_pyStrNat (n : Nat) : noSep (pyStrNat n) := by
  unfold noSep pyStrNat
  split
  · decide
  · intro hmem
    have hmem2 : '|' ∈ ((digitsRev 10 n).map base62Char).reverse := hmem
    rw [List.mem_reverse] at hmem2
    obtain ⟨d, hd, hchar⟩ := List.mem_map.1 hmem2
    have hlt : d < 10 := digitsRev_lt 10 n d hd
    have hne : ∀ k < 10, base62Char k ≠ '|' := by decide
    exact hne d hlt hchar

theorem pyStrNat_one : pyStrNat 1 = "1" := by
  have h : digitsRev 10 1 = [1] := by simp [digitsRev]
  rw [pyStrNat, if_neg (by norm_num), h]
  decide

/-- C3 counterexample: the two snapshots `c3CfgA` and `c3CfgB` differ in
their contributing fields (`qdrant_url` is `"x|y"` versus `"x"`,
`qdrant_api_key` is `""` versus `"y"`), yet their fingerprints are equal:
the `"|"` inside `qdrant_url` shifts across the join separator.  This
refutes "two snapshots differing in at least one contributing field never
produce equal fingerprints". -/
theorem c3_fingerprint_collision :
    fingerprint c3CfgA = fingerprint c3CfgB ∧ c3CfgA ≠ c3CfgB := by
  constructor
  · simp only [fingerprint, fingerprint_parts, c3CfgA, c3CfgB, joinParts,
      pyStrNat_one]
    decide
  · decide

/-- C3 (amended): equal snapshots always give equal fingerprints, and the
converse — equal fingerprints imply equal snapshots — holds provided no
contributing string field contains the join separator `"|"` (the
counterexample `c3_fingerprint_collision` shows it fails otherwise). -/
theorem c3_amended_fingerprint_iff (c c' : ConfigSnapshot) :
    (c = c' → fingerprint c = fingerprint c') ∧
    (ConfigNoSep c → ConfigNoSep c' → fingerprint c = fingerprint c' →
      c = c') := by
  constructor
  · intro h
    rw [h]
  · intro hns hns' h
    have hall : ∀ p ∈ fingerprint_parts c, noSep p := by
      obtain ⟨h1, h2, h3, h4, h5, h6, h7, h8, h9⟩ := hns
      intro p hp
      simp only [fingerprint_parts, List.mem_cons, List.not_mem_nil,
        or_false] at hp
      rcases hp with rfl | rfl | rfl | rfl | rfl | rfl | rfl | rfl | rfl | rfl
      exacts [h1, h2, h3, noSep_pyStrNat _, h4, h5, h6, h7, h8, h9]
    have hall' : ∀ p ∈ fingerprint_parts c', noSep p := by
      obtain ⟨h1, h2, h3, h4, h5, h6, h7, h8, h9⟩ := hns'
      intro p hp
      simp only [fingerprint_parts, List.mem_cons, List.not_mem_nil,
        or_false] at hp
      rcases hp with rfl | rfl | rfl | rfl | rfl | rfl | rfl | rfl | rfl | rfl
      exacts [h1, h2, h3, noSep_pyStrNat _, h4, h5, h6, h7, h8, h9]
    have hparts := joinParts_inj (fingerprint_parts c) (fingerprint_parts c')
      (by rfl) hall hall' h
    obtain ⟨u1, k1, n1, d1, ⟨la, lc, lb⟩, ⟨ea, ec, eb⟩⟩ := c
    obtain ⟨u2, k2, n2, d2, ⟨la2, lc2, lb2⟩, ⟨ea2, ec2, eb2⟩⟩ := c'
    simp only [fingerprint_parts, List.cons.injEq, and_true] at hparts
    obtain ⟨e1, e2, e3, e4, e5, e6, e7, e8, e9, e10⟩ := hparts
    have hd := pyStrNat_injective e4
    subst e1 e2 e3 e5 e6 e7 e8 e9 e10 hd
    rfl

theorem c3_amended_fingerprint_iff_witness :
    ConfigNoSep
        { qdrant_url := "q", qdrant_api_key := "s", collection_name := "c",
          TEXT_EMBEDDING_DIMENSION := 1,
          llm_model := ⟨"k", "m", "u"⟩,
          embedding_model := ⟨"k", "m", "u"⟩ } ∧
    ({ qdrant_url := "q", qdrant_api_key := "s", collection_name := "c",
       TEXT_EMBEDDING_DIMENSION := 1,
       llm_model := ⟨"k", "m", "u"⟩,
       embedding_model := ⟨"k", "m", "u"⟩ } : ConfigSnapshot) =
      { qdrant_url := "q", qdrant_api_key := "s", collection_name := "c",
        TEXT_EMBEDDING_DIMENSION := 1,
        llm_model := ⟨"k", "m", "u"⟩,
        embedding_model := ⟨"k", "m", "u"⟩ } :=
  ⟨by decide,
   (c3_amended_fingerprint_iff
      { qdrant_url := "q", qdrant_api_key := "s", collection_name := "c",
        TEXT_EMBEDDING_DIMENSION := 1,
        llm_model := ⟨"k", "m", "u"⟩,
        embedding_model := ⟨"k", "m", "u"⟩ } _).2 (by decide) (by decide) rfl⟩

/-! ### Formatter filter theorems -/

/-- C8: with a score threshold supplied, a record survives
`_filter_by_score` if and only if it was in the input and it either has
no score field, or its score is unparsable as a number, or its parsed
score is at least the threshold — missing or unparsable scores never drop
a record (fail-open). -/
theorem c8_score_filter_fail_open (items : List MemRecord) (th : ℚ)
    (r : MemRecord) :
    r ∈ _filter_by_score items (some th) ↔
      r ∈ items ∧ (r.score = none ∨ r.score = some .unparsable ∨
        ∃ q, r.score = some (.num q) ∧ th ≤ q) := by
  unfold _filter_by_score
  rw [List.mem_filter]
  apply and_congr_right
  intro _
  cases hs : r.score with
  | none => simp [hs]
  | some sf =>
    cases sf with
    | num q => simp [hs]
    | unparsable => simp [hs]

/-- C10: with a non-empty tag list, `_filter_by_tags` keeps exactly the
records whose metadata (defaulted to `{}` when absent) is a mapping whose
`TYPE` value (defaulted to `""`) is among the tags — so a record with
non-mapping metadata, or without a matching `TYPE`, is silently dropped;
with `None` or an empty tag list, every record (including those same
malformed ones) is kept. -/
theorem c10_tag_filter_asymmetric (items : List MemRecord)
    (ts : List String) (r : MemRecord) (hts : ts ≠ []) :
    (r ∈ _filter_by_tags items (some ts) ↔
      r ∈ items ∧ ∃ entries, r.metadata.getD (.dict []) = .dict entries ∧
        (metaLookup entries "TYPE").getD "" ∈ ts) ∧
    _filter_by_tags items none = items ∧
    _filter_by_tags items (some []) = items := by
  obtain ⟨t0, ts0, rfl⟩ := List.exists_cons_of_ne_nil hts
  refine ⟨?_, rfl, rfl⟩
  unfold _filter_by_tags
  rw [List.mem_filter]
  apply and_congr_right
  intro _
  cases hm : r.metadata.getD (.dict []) with
  | nondict => simp [hm]
  | dict entries => simp [hm]

theorem c10_tag_filter_asymmetric_witness :
    (["A"] : List String) ≠ [] ∧
    (⟨none, some (.dict [("TYPE", "A")])⟩ ∈
      _filter_by_tags
        [⟨none, some (.dict [("TYPE", "A")])⟩,
         ⟨none, some .nondict⟩,
         ⟨none, some (.dict [("TYPE", "B")])⟩] (some ["A"]) ↔
      (⟨none, some (.dict [("TYPE", "A")])⟩ : MemRecord) ∈
        [⟨none, some (.dict [("TYPE", "A")])⟩,
         ⟨none, some .nondict⟩,
         ⟨none, some (.dict [("TYPE", "B")])⟩] ∧
      ∃ entries,
        (⟨none, some (.dict [("TYPE", "A")])⟩ : MemRecord).metadata.getD
            (.dict []) = .dict entries ∧
        (metaLookup entries "TYPE").getD "" ∈ ["A"]) :=
  ⟨by decide,
   (c10_tag_filter_asymmetric
      [⟨none, some (.dict [("TYPE", "A")])⟩,
       ⟨none, some .nondict⟩,
       ⟨none, some (.dict [("TYPE", "B")])⟩]
      ["A"] ⟨none, some (.dict [("TYPE", "A")])⟩ (by decide)).1⟩

/-! ### TTL cache and prompt-injection theorems -/

theorem cacheLookup_filter (p : String × CacheEntry → Bool) :
    ∀ (c : InjectCache) (k : String) (e : CacheEntry),
      cacheLookup (c.filter p) k = some e → p (k, e) = true := by
  intro c
  induction c with
  | nil => intro k e h; simp [cacheLookup] at h
  | cons hd rest ih =>
    intro k e h
    by_cases hp : p hd = true
    · rw [List.filter_cons_of_pos hp] at h
      unfold cacheLookup at h
      by_cases hk : hd.1 = k
      · rw [if_pos hk] at h
        have he2 : hd.2 = e := Option.some.inj h
        subst hk
        subst he2
        exact hp
      · rw [if_neg hk] at h
        exact ih k e h
    · rw [List.filter_cons_of_neg (by simpa using hp)] at h
      exact ih k e h

/-- C7: with auto-memory enabled, (i) a live cache entry — strictly
younger than the TTL — is returned verbatim with the cache untouched and
without running the retrieval pipeline (the result does not depend on the
`pipeline` oracle at all); (ii) an entry whose age has reached the TTL is
never returned: the call behaves exactly as the pipeline (cache-miss)
path; (iii) after every store of a new entry, every entry left in the
cache has age at most the TTL (all strictly older ones were purged). -/
theorem c7_inject_cache_ttl (cfg : InjectConfig) (now : Int) (key : String)
    (cache : InjectCache) (pipeline : Except Unit String)
    (hen : cfg.AUTO_MEMORY_ENABLED = true) :
    (∀ e, cacheLookup cache key = some e →
      now - e.timestamp < cfg.TOPIC_CACHE_EXPIRE_SECONDS →
      memory_prompt_inject cfg now key cache pipeline = (e.result, cache)) ∧
    (∀ e, cacheLookup cache key = some e →
      ¬(now - e.timestamp < cfg.TOPIC_CACHE_EXPIRE_SECONDS) →
      memory_prompt_inject cfg now key cache pipeline =
        runPipelinePath cfg now key cache pipeline) ∧
    (∀ t, pipeline = .ok t → t.trim ≠ "" →
      ∀ k e, cacheLookup
          (runPipelinePath cfg now key cache pipeline).2 k = some e →
        now - e.timestamp ≤ cfg.TOPIC_CACHE_EXPIRE_SECONDS) := by
  refine ⟨?_, ?_, ?_⟩
  · intro e he hlive
    unfold memory_prompt_inject
    rw [hen, he]
    simp only [Bool.not_true, Bool.false_eq_true, if_false]
    rw [if_pos hlive]
  · intro e he hexp
    unfold memory_prompt_inject
    rw [hen, he]
    simp only [Bool.not_true, Bool.false_eq_true, if_false]
    rw [if_neg hexp]
  · intro t hp hnb k e he
    rw [hp] at he
    have he2 : cacheLookup
        ((if t.trim = "" then (("", cache) : String × InjectCache)
          else (t.trim,
            (cacheInsert cache key ⟨now, t.trim⟩).filter (fun p =>
              !decide (cfg.TOPIC_CACHE_EXPIRE_SECONDS <
                now - p.2.timestamp))))).2 k = some e := he
    rw [if_neg hnb] at he2
    have h3 := cacheLookup_filter _ _ _ _ he2
    simp only [Bool.not_eq_true', decide_eq_false_iff_not, not_lt] at h3
    omega

theorem c7_inject_cache_ttl_witness :
    memory_prompt_inject ⟨true, 60⟩ 100 "k" [("k", ⟨50, "hi"⟩)]
      (.error ()) = ("hi", [("k", ⟨50, "hi"⟩)]) :=
  (c7_inject_cache_ttl ⟨true, 60⟩ 100 "k" [("k", ⟨50, "hi"⟩)] (.error ())
    rfl).1 ⟨50, "hi"⟩ (by decide) (by decide)

/-- C9: with auto-memory enabled and no entry under the conversation key,
(i) a pipeline exception returns `""` with the cache untouched, (ii) a
blank computed text returns `""` with the cache untouched, (iii) the
cache invariant "every stored entry has a non-empty rendered text" is
preserved by any call (the only entry ever inserted carries the non-blank
stripped text), and (iv) after a failed call the next call for the same
key runs the pipeline again even inside the TTL window, because nothing
was cached. -/
theorem c9_empty_or_failed_never_cached (cfg : InjectConfig) (now : Int)
    (key : String) (cache : InjectCache) (pipeline : Except Unit String)
    (hen : cfg.AUTO_MEMORY_ENABLED = true)
    (hmiss : cacheLookup cache key = none) :
    (pipeline = .error () →
      memory_prompt_inject cfg now key cache pipeline = ("", cache)) ∧
    (∀ t, pipeline = .ok t → t.trim = "" →
      memory_prompt_inject cfg now key cache pipeline = ("", cache)) ∧
    ((∀ p ∈ cache, p.2.result ≠ "") →
      ∀ p ∈ (memory_prompt_inject cfg now key cache pipeline).2,
        p.2.result ≠ "") ∧
    (∀ (now2 : Int) (pipe2 : Except Unit String), pipeline = .error () →
      memory_prompt_inject cfg now2 key
        (memory_prompt_inject cfg now key cache pipeline).2 pipe2 =
        runPipelinePath cfg now2 key cache pipe2) := by
  have hred : ∀ (n : Int) (pl : Except Unit String),
      memory_prompt_inject cfg n key cache pl =
        runPipelinePath cfg n key cache pl := by
    intro n pl
    unfold memory_prompt_inject
    rw [hen, hmiss]
    rfl
  have h1 : pipeline = .error () →
      memory_prompt_inject cfg now key cache pipeline = ("", cache) := by
    intro herr
    rw [hred, herr]
    rfl
  refine ⟨h1, ?_, ?_, ?_⟩
  · intro t hok ht
    rw [hred, hok]
    show (if t.trim = "" then (("", cache) : String × InjectCache)
      else (t.trim, (cacheInsert cache key ⟨now, t.trim⟩).filter (fun p =>
        !decide (cfg.TOPIC_CACHE_EXPIRE_SECONDS < now - p.2.timestamp)))) =
      ("", cache)
    rw [if_pos ht]
  · intro hin p hp2
    rw [hred] at hp2
    cases pipeline with
    | error e => exact hin p hp2
    | ok t =>
      by_cases ht : t.trim = ""
      · have hc : (runPipelinePath cfg now key cache (.ok t)).2 = cache := by
          show (if t.trim = "" then (("", cache) : String × InjectCache)
            else (t.trim,
              (cacheInsert cache key ⟨now, t.trim⟩).filter (fun p =>
                !decide (cfg.TOPIC_CACHE_EXPIRE_SECONDS <
                  now - p.2.timestamp)))).2 = cache
          rw [if_pos ht]
        rw [hc] at hp2
        exact hin p hp2
      · have hc : (runPipelinePath cfg now key cache (.ok t)).2 =
            (cacheInsert cache key ⟨now, t.trim⟩).filter (fun p =>
              !decide (cfg.TOPIC_CACHE_EXPIRE_SECONDS <
                now - p.2.timestamp)) := by
          show (if t.trim = "" then (("", cache) : String × InjectCache)
            else (t.trim,
              (cacheInsert cache key ⟨now, t.trim⟩).filter (fun p =>
                !decide (cfg.TOPIC_CACHE_EXPIRE_SECONDS <
                  now - p.2.timestamp)))).2 = _
          rw [if_neg ht]
        rw [hc] at hp2
        have hp3 := (List.mem_filter.1 hp2).1
        unfold cacheInsert at hp3
        rcases List.mem_cons.1 hp3 with heq | hp4
        · rw [heq]
          simpa using ht
        · exact hin p (List.mem_filter.1 hp4).1
  · intro now2 pipe2 herr
    have hc : (memory_prompt_inject cfg now key cache pipeline).2 = cache :=
      by rw [h1 herr]
    rw [hc]
    exact hred now2 pipe2

theorem c9_empty_or_failed_never_cached_witness :
    cacheLookup [] "k" = none ∧
    memory_prompt_inject ⟨true, 60⟩ 100 "k" [] (.error ()) = ("", []) :=
  ⟨rfl,
   (c9_empty_or_failed_never_cached ⟨true, 60⟩ 100 "k" [] (.error ())
     rfl rfl).1 rfl⟩

/-- C6 counterexample: the `plugin_method.py` prompt-injection entry
point propagates an exception raised by the channel lookup
(`DBChatChannel.get_channel`, which is awaited outside any
`try`/`except`) instead of returning an empty injected block. -/
theorem c6_injection_propagates_counterexample :
    inject_memory_prompt (.error ()) (.ok []) (fun _ => .ok "") =
      .error () ∧
    inject_memory_prompt (.error ()) (.ok []) (fun _ => .ok "") ≠
      .ok "" := by
  constructor
  · rfl
  · intro h
    rw [show inject_memory_prompt (.error ()) (.ok []) (fun _ => .ok "") =
      Except.error () from rfl] at h
    exact Except.noConfusion h

/-- C6 (amended): only `memory_prompt_inject` (the `__init__.py` entry
point) converts every pipeline failure into an empty injected block: on a
cache miss, or on an expired entry, a pipeline exception yields `""` with
the cache untouched and no exception escapes.  `inject_memory_prompt`
(the `plugin_method.py` entry point) never returns an empty block — once
its channel and message lookups succeed it always returns the full prompt
template (per-user retrieval failures are caught and merely shrink the
pre-searched context) — while failures of those lookups propagate
(`c6_injection_propagates_counterexample`). -/
theorem c6_amended_graceful_degradation (cfg : InjectConfig) (now : Int)
    (key : String) (cache : InjectCache) :
    (cacheLookup cache key = none →
      memory_prompt_inject cfg now key cache (.error ()) = ("", cache)) ∧
    (∀ e, cacheLookup cache key = some e →
      ¬(now - e.timestamp < cfg.TOPIC_CACHE_EXPIRE_SECONDS) →
      memory_prompt_inject cfg now key cache (.error ()) = ("", cache)) ∧
    (∀ (ch : Unit) (msgs : List DbMsg)
        (memFor : String → Except Unit String), ∃ ctx,
      inject_memory_prompt (.ok ch) (.ok msgs) memFor =
        .ok (PROMPT_TEMPLATE ctx)) := by
  refine ⟨?_, ?_, ?_⟩
  · intro hmiss
    unfold memory_prompt_inject
    cases hen : cfg.AUTO_MEMORY_ENABLED with
    | false => rfl
    | true => rw [hmiss]; rfl
  · intro e he hexp
    unfold memory_prompt_inject
    cases hen : cfg.AUTO_MEMORY_ENABLED with
    | false => rfl
    | true =>
      rw [he]
      simp only [Bool.not_true, Bool.false_eq_true, if_false]
      rw [if_neg hexp]
      rfl
  · intro ch msgs memFor
    exact ⟨_, rfl⟩

theorem c6_amended_graceful_degradation_witness :
    cacheLookup [] "k" = none ∧
    memory_prompt_inject ⟨true, 60⟩ 100 "k" [] (.error ()) = ("", []) :=
  ⟨rfl, (c6_amended_graceful_degradation ⟨true, 60⟩ 100 "k" []).1 rfl⟩
